import Mathlib

/-!
Verification of the interaction engine in `src/agent.py` (computer-using
agent with process documentation).  Each Python function relevant to the
frozen claims is shallowly embedded as an executable Lean definition:

* `strip_old_images`, `truncate_log`, `dispatch_update` — the History
  Manager (lines 425–450 and 578–593 of `agent.py`);
* `wait_until_itpm_reset` — the Rate Limiter wait computation
  (lines 453–486);
* `attempt_request` — the throttling retry loop around the provider call
  (lines 560–568), with Python local-variable scoping made explicit;
* `execute_computer_tool` — the Action Dispatcher (lines 205–358), with
  `pyautogui` abstracted as a fallible `Effector` record;
* `collect_from_stream` — the Stream Decoder (lines 360–423), with
  Python dict/reference mutation modelled by a slot store and
  `json.loads` abstracted as a `parse` parameter.

Python dictionaries keyed by `int` are modelled as cons-shadowed
association lists (`lookupA` agrees with dict lookup), in-place mutation
of a dict held by several references is modelled by indirection through
store slots, and uncaught Python exceptions are modelled by `Except`.
-/

namespace Agent

/-! ## Generic helpers -/

/-- Lookup in an association list with natural-number keys; the most
recently consed binding shadows older ones, exactly like assignment into
a Python dict followed by lookup. -/
def lookupA {α : Type} : List (Nat × α) → Nat → Option α
  | [], _ => none
  | (k, v) :: r, i => if k = i then some v else lookupA r i

/-- Replace the element at position `n` by `f` applied to it; out-of-range
indices leave the list unchanged. -/
def modifyAt {α : Type} : List α → Nat → (α → α) → List α
  | [], _, _ => []
  | x :: r, 0, f => f x :: r
  | x :: r, Nat.succ n, f => x :: modifyAt r n f

theorem modifyAt_length {α : Type} (l : List α) (n : Nat) (f : α → α) :
    (modifyAt l n f).length = l.length := by
  induction l generalizing n with
  | nil => rfl
  | cons x r ih =>
    cases n with
    | zero => simp [modifyAt]
    | succ m => simp [modifyAt, ih]

theorem modifyAt_get? {α : Type} (l : List α) (n : Nat) (f : α → α) (j : Nat) :
    (modifyAt l n f).get? j = if j = n then (l.get? n).map f else l.get? j := by
  induction l generalizing n j with
  | nil => simp [modifyAt]
  | cons x r ih =>
    cases n with
    | zero =>
      cases j with
      | zero => simp [modifyAt]
      | succ j' => simp [modifyAt]
    | succ m =>
      cases j with
      | zero => simp [modifyAt]
      | succ j' =>
        simp only [modifyAt, List.get?]
        rw [ih]
        simp [Nat.succ_eq_add_one]

/-- The suffix of the last `n` elements, i.e. Python `l[-n:]` for `n > 0`. -/
def lastN {α : Type} (n : Nat) (l : List α) : List α :=
  l.drop (l.length - n)

theorem lastN_length {α : Type} (n : Nat) (l : List α) :
    (lastN n l).length = min n l.length := by
  simp [lastN, List.length_drop]
  omega

theorem lastN_of_le {α : Type} (n : Nat) (l : List α) (h : l.length ≤ n) :
    lastN n l = l := by
  simp [lastN, Nat.sub_eq_zero_of_le h]

/-! ## History Manager: `strip_old_images` (agent.py lines 425–450)

Message content blocks are Python dicts; the fields that
`strip_old_images` inspects are the `"type"`, `"source"` and `"data"`
keys.  `extra` stands for all remaining keys of the dict.  A `"source"`
value can itself be a dict (with an optional `"data"` key and remaining
keys `extra`) or a non-dict scalar, modelled as a string. -/

/-- Value found under the `"source"` key of a block dict. -/
inductive SourceVal : Type
  | dict (data : Option String) (extra : List (String × String))
  | prim (s : String)
  deriving DecidableEq

/-- Python truthiness of a `"source"` value: a dict is truthy iff it is
non-empty, a string iff it is non-empty. -/
def SourceVal.truthy : SourceVal → Bool
  | .dict d e => !(d.isNone && e.isEmpty)
  | .prim s => !(s == "")

/-- A content block dict: the keys `strip_old_images` looks at, plus the
remaining key/value pairs `extra`. -/
structure MsgBlock : Type where
  type : Option String
  source : Option SourceVal
  data : Option String
  extra : List (String × String)
  deriving DecidableEq

/-- An element of a message content list: a block dict or a non-dict value. -/
inductive ContentItem : Type
  | block (b : MsgBlock)
  | prim (s : String)
  deriving DecidableEq

/-- The `"content"` of a message: either a bare string (the initial user
prompt) or a list of content items. -/
inductive MsgContent : Type
  | str (s : String)
  | items (l : List ContentItem)
  deriving DecidableEq

/-- One message of the conversation log. -/
structure Message : Type where
  role : String
  content : MsgContent
  deriving DecidableEq

/-- Embedding of the per-block body of `strip_old_images`: for an image
block, `src = blk.get("source") or blk`; when `src` is a dict containing
`"data"`, that field is overwritten with `""`.  When the source is absent
or falsy, `src` is the block itself, so the top-level `"data"` key is
blanked. -/
def stripItem : ContentItem → ContentItem
  | .prim s => .prim s
  | .block b =>
    if b.type = some "image" then
      match b.source with
      | some sv =>
        if sv.truthy then
          match sv with
          | .dict d e => if d.isSome then .block { b with source := some (.dict (some "") e) } else .block b
          | .prim _ => .block b
        else
          if b.data.isSome then .block { b with data := some "" } else .block b
      | none =>
        if b.data.isSome then .block { b with data := some "" } else .block b
    else .block b

/-- Per-message part of `strip_old_images`: non-list content is skipped,
list content has each block processed.  The Python loops run over the
reversed lists, but every block is transformed independently, so the
result equals a structural map. -/
def stripMessage (m : Message) : Message :=
  match m.content with
  | .str s => ⟨m.role, .str s⟩
  | .items l => ⟨m.role, .items (l.map stripItem)⟩

/-- Embedding of `strip_old_images` (agent.py lines 425–450); the Python
function mutates the list in place, the embedding returns the updated log. -/
def strip_old_images (messages : List Message) : List Message :=
  messages.map stripMessage

theorem stripItem_idem (it : ContentItem) : stripItem (stripItem it) = stripItem it := by
  cases it with
  | prim s => rfl
  | block b =>
    by_cases htype : b.type = some "image"
    · cases hsrc : b.source with
      | none =>
        by_cases hdata : b.data.isSome
        · simp [stripItem, htype, hsrc, hdata]
        · simp [stripItem, htype, hsrc, hdata]
      | some sv =>
        cases sv with
        | dict d e =>
          by_cases htr : (SourceVal.dict d e).truthy
          · cases d with
            | none =>
              simp [stripItem, htype, hsrc, htr]
            | some dv =>
              have htr' : (SourceVal.dict (some "") e).truthy := by
                simp [SourceVal.truthy]
              simp [stripItem, htype, hsrc, htr, htr']
          · by_cases hdata : b.data.isSome
            · simp [stripItem, htype, hsrc, htr, hdata]
            · simp [stripItem, htype, hsrc, htr, hdata]
        | prim s =>
          by_cases htr : (SourceVal.prim s).truthy
          · simp [stripItem, htype, hsrc, htr]
          · by_cases hdata : b.data.isSome
            · simp [stripItem, htype, hsrc, htr, hdata]
            · simp [stripItem, htype, hsrc, htr, hdata]
    · simp [stripItem, htype]

theorem stripMessage_idem (m : Message) : stripMessage (stripMessage m) = stripMessage m := by
  cases m with
  | mk role content =>
    cases content with
    | str s => rfl
    | items l =>
      simp [stripMessage, Function.comp, stripItem_idem]

/-- Claim C7: `strip_old_images` is idempotent — applying it twice to any
message log yields the same log as applying it once. -/
theorem strip_old_images_idempotent (messages : List Message) :
    strip_old_images (strip_old_images messages) = strip_old_images messages := by
  simp [strip_old_images, Function.comp, stripMessage_idem]

/-! ## Claim C10: what `strip_old_images` touches -/

/-- Frame relation between an original content item and its stripped
version: either it is unchanged, or it is an image-typed block and
exactly one data field was blanked — the `data` inside a dict source, or
the top-level `data` of the block itself. -/
def itemFrame (it it' : ContentItem) : Prop :=
  match it, it' with
  | .prim s, .prim s' => s' = s
  | .block b, .block b' =>
    (b.type ≠ some "image" → b' = b) ∧
    (b' = b ∨
      (b.type = some "image" ∧ b'.type = b.type ∧ b'.extra = b.extra ∧
        ((∃ d e, b.source = some (.dict (some d) e) ∧
            b'.source = some (.dict (some "") e) ∧ b'.data = b.data) ∨
         (∃ d, b.data = some d ∧ b'.data = some "" ∧ b'.source = b.source))))
  | _, _ => False

/-- Frame relation between a message and its stripped version: same role,
same content shape, items related pointwise. -/
def msgFrame (m m' : Message) : Prop :=
  m'.role = m.role ∧
  match m.content, m'.content with
  | .str s, .str s' => s' = s
  | .items l, .items l' => List.Forall₂ itemFrame l l'
  | _, _ => False

theorem stripItem_frame (it : ContentItem) : itemFrame it (stripItem it) := by
  cases it with
  | prim s => exact rfl
  | block b =>
    by_cases htype : b.type = some "image"
    · cases hsrc : b.source with
      | none =>
        by_cases hdata : b.data.isSome
        · rcases Option.isSome_iff_exists.mp hdata with ⟨d, hd⟩
          have hs : stripItem (.block b) = .block { b with data := some "" } := by
            simp [stripItem, htype, hsrc, hdata]
          rw [hs]
          exact ⟨fun hn => absurd htype hn, Or.inr ⟨htype, rfl, rfl, Or.inr ⟨d, hd, rfl, rfl⟩⟩⟩
        · have hs : stripItem (.block b) = .block b := by
            simp [stripItem, htype, hsrc, hdata]
          rw [hs]
          exact ⟨fun _ => rfl, Or.inl rfl⟩
      | some sv =>
        cases sv with
        | dict d e =>
          by_cases htr : (SourceVal.dict d e).truthy
          · cases d with
            | none =>
              have hs : stripItem (.block b) = .block b := by
                simp [stripItem, htype, hsrc, htr]
              rw [hs]
              exact ⟨fun _ => rfl, Or.inl rfl⟩
            | some dv =>
              have hs : stripItem (.block b)
                  = .block { b with source := some (.dict (some "") e) } := by
                simp [stripItem, htype, hsrc, htr]
              rw [hs]
              exact ⟨fun hn => absurd htype hn,
                Or.inr ⟨htype, rfl, rfl, Or.inl ⟨dv, e, hsrc, rfl, rfl⟩⟩⟩
          · by_cases hdata : b.data.isSome
            · rcases Option.isSome_iff_exists.mp hdata with ⟨dv, hd⟩
              have hs : stripItem (.block b) = .block { b with data := some "" } := by
                simp [stripItem, htype, hsrc, htr, hdata]
              rw [hs]
              exact ⟨fun hn => absurd htype hn,
                Or.inr ⟨htype, rfl, rfl, Or.inr ⟨dv, hd, rfl, rfl⟩⟩⟩
            · have hs : stripItem (.block b) = .block b := by
                simp [stripItem, htype, hsrc, htr, hdata]
              rw [hs]
              exact ⟨fun _ => rfl, Or.inl rfl⟩
        | prim s =>
          by_cases htr : (SourceVal.prim s).truthy
          · have hs : stripItem (.block b) = .block b := by
              simp [stripItem, htype, hsrc, htr]
            rw [hs]
            exact ⟨fun _ => rfl, Or.inl rfl⟩
          · by_cases hdata : b.data.isSome
            · rcases Option.isSome_iff_exists.mp hdata with ⟨dv, hd⟩
              have hs : stripItem (.block b) = .block { b with data := some "" } := by
                simp [stripItem, htype, hsrc, htr, hdata]
              rw [hs]
              exact ⟨fun hn => absurd htype hn,
                Or.inr ⟨htype, rfl, rfl, Or.inr ⟨dv, hd, rfl, rfl⟩⟩⟩
            · have hs : stripItem (.block b) = .block b := by
                simp [stripItem, htype, hsrc, htr, hdata]
              rw [hs]
              exact ⟨fun _ => rfl, Or.inl rfl⟩
    · have hs : stripItem (.block b) = .block b := by
        simp [stripItem, htype]
      rw [hs]
      exact ⟨fun _ => rfl, Or.inl rfl⟩

theorem stripMessage_frame (m : Message) : msgFrame m (stripMessage m) := by
  cases m with
  | mk role content =>
    cases content with
    | str s => simp [stripMessage, msgFrame]
    | items l =>
      refine ⟨rfl, ?_⟩
      simp only [stripMessage]
      induction l with
      | nil => simp
      | cons x r ih => exact List.Forall₂.cons (stripItem_frame x) ih

/-- A concrete log with one image block that has no `"source"` key but a
top-level `"data"` key holding a payload. -/
def c10Block : MsgBlock := ⟨some "image", none, some "XYZ", []⟩

/-- One-message log used as the C10 counterexample input. -/
def c10Log : List Message := [⟨"user", .items [.block c10Block]⟩]

/-- Claim C10 counterexample: on a log whose single image block carries
its payload in a top-level `data` key and has no `source`, the claim
implies `strip_old_images` leaves the log unchanged (there is no source
to modify), but the code blanks the block's own `data` field. -/
theorem strip_toplevel_data_cex :
    c10Block.source = none ∧
    strip_old_images c10Log ≠ c10Log ∧
    strip_old_images c10Log = [⟨"user", .items [.block ⟨some "image", none, some "", []⟩]⟩] := by
  refine ⟨rfl, ?_, by decide⟩
  decide

/-- Claim C10 (amended): `strip_old_images` never adds, removes or
reorders messages or blocks; every non-image block is unchanged, and an
image block is either unchanged or has exactly one field blanked — the
`data` field inside its dict source, or, when the source is absent or
falsy, the block's own top-level `data` field. -/
theorem strip_old_images_frame (messages : List Message) :
    List.Forall₂ msgFrame messages (strip_old_images messages) := by
  simp only [strip_old_images]
  induction messages with
  | nil => simp
  | cons m r ih => exact List.Forall₂.cons (stripMessage_frame m) ih

/-! ## History Manager: truncation (agent.py lines 592–593) -/

/-- Embedding of `messages[:] = [messages[0]] + messages[-60:]`; the empty
case cannot occur at the call site (the log always starts with the user
instruction), where Python would raise `IndexError`. -/
def truncate_log (messages : List Message) : List Message :=
  match messages with
  | [] => []
  | m0 :: _ => m0 :: lastN 60 messages

/-- Claim C9: the truncation performed by `run_agent_loop` after an
image-flagged iteration rebuilds the log as exactly the pre-truncation
first message followed by the last 60 pre-truncation messages; hence on a
log of at most 60 messages the first message is duplicated (positions 0
and 1) and the length grows by one. -/
theorem truncate_log_window_spec (messages : List Message) (m0 : Message)
    (rest : List Message) (h : messages = m0 :: rest) :
    truncate_log messages = m0 :: lastN 60 messages ∧
    (messages.length ≤ 60 →
      truncate_log messages = m0 :: messages ∧
      (truncate_log messages).length = messages.length + 1 ∧
      (truncate_log messages).get? 0 = some m0 ∧
      (truncate_log messages).get? 1 = some m0) := by
  subst h
  constructor
  · rfl
  · intro hlen
    have hl : lastN 60 (m0 :: rest) = m0 :: rest := lastN_of_le 60 (m0 :: rest) hlen
    refine ⟨?_, ?_, ?_, ?_⟩
    · simp [truncate_log, hl]
    · simp [truncate_log, hl]
    · simp [truncate_log, hl]
    · simp [truncate_log, hl]

/-- Sample message for witnesses. -/
def mUser : Message := ⟨"user", .str "task"⟩

/-- Witness for C9 at a concrete two-message log. -/
theorem truncate_log_window_spec_witness :
    truncate_log [mUser, mUser] = mUser :: lastN 60 [mUser, mUser] ∧
    ([mUser, mUser].length ≤ 60 →
      truncate_log [mUser, mUser] = mUser :: [mUser, mUser] ∧
      (truncate_log [mUser, mUser]).length = [mUser, mUser].length + 1 ∧
      (truncate_log [mUser, mUser]).get? 0 = some mUser ∧
      (truncate_log [mUser, mUser]).get? 1 = some mUser) :=
  truncate_log_window_spec [mUser, mUser] mUser [mUser] rfl

/-! ## Loop Controller dispatch tail (agent.py lines 578–593)

After the decoded tool calls of one iteration are executed, the loop has
produced one result-kind flag (`"image"` or `"text"`) per call.  During
the loop, `strip_old_images(messages)` runs after every image result;
after appending the collected tool results as one user message, the log
is truncated — but the `if flag == "image"` guard reads the loop
variable, i.e. the flag of the LAST call only. -/

/-- The stale-image strips performed inside the dispatch loop: one
`strip_old_images` call per `"image"` flag, in order. -/
def strip_phase (messages : List Message) : List String → List Message
  | [] => messages
  | flag :: rest =>
    strip_phase (if flag = "image" then strip_old_images messages else messages) rest

/-- Embedding of the post-dispatch log update (agent.py lines 578–593):
strips during the loop, append of the tool-results message, then the
truncation guarded by the last flag. -/
def dispatch_update (messages : List Message) (flags : List String)
    (tool_results_msg : Message) : List Message :=
  let msgs1 := strip_phase messages flags
  let msgs2 := msgs1 ++ [tool_results_msg]
  match flags.getLast? with
  | some f => if f = "image" then truncate_log msgs2 else msgs2
  | none => msgs2

/-- A 62-message log used in the C3 counterexample. -/
def c3Log : List Message := List.replicate 62 mUser

/-- Claim C3 counterexample: an iteration whose first tool result is an
image but whose last is text.  The claim requires truncation (length at
most 61); the code skips truncation because only the last flag is
consulted, leaving 63 messages. -/
theorem dispatch_any_image_cex :
    "image" ∈ ["image", "text"] ∧
    (dispatch_update c3Log ["image", "text"] mUser).length = 63 ∧
    ¬ (dispatch_update c3Log ["image", "text"] mUser).length ≤ 61 := by
  refine ⟨by decide, ?_, ?_⟩ <;> decide

theorem truncate_log_length_le (l : List Message) :
    (truncate_log l).length ≤ 61 := by
  cases l with
  | nil => simp [truncate_log]
  | cons m0 r =>
    simp only [truncate_log, List.length_cons]
    have := lastN_length 60 (m0 :: r)
    omega

theorem truncate_log_head? (l : List Message) (hne : l ≠ []) :
    (truncate_log l).head? = l.head? := by
  cases l with
  | nil => simp at hne
  | cons m0 r => rfl

/-- Claim C3 (amended): after an iteration, the log is truncated to
message 0 plus the most recent 60-message window (never exceeding 61
messages, preserving position 0) precisely when the LAST tool result of
the iteration carried an image payload; when the last result was not an
image, the log is left untouched by truncation, even if an earlier result
of the same iteration carried an image. -/
theorem dispatch_truncates_iff_last_flag (messages : List Message)
    (flags : List String) (tr : Message) (_hne : flags ≠ []) :
    (flags.getLast? = some "image" →
      dispatch_update messages flags tr = truncate_log (strip_phase messages flags ++ [tr]) ∧
      (dispatch_update messages flags tr).length ≤ 61 ∧
      (dispatch_update messages flags tr).head? = (strip_phase messages flags ++ [tr]).head?) ∧
    (∀ f, flags.getLast? = some f → f ≠ "image" →
      dispatch_update messages flags tr = strip_phase messages flags ++ [tr]) := by
  constructor
  · intro hlast
    have h1 : dispatch_update messages flags tr
        = truncate_log (strip_phase messages flags ++ [tr]) := by
      simp [dispatch_update, hlast]
    refine ⟨h1, ?_, ?_⟩
    · rw [h1]; exact truncate_log_length_le _
    · rw [h1]
      exact truncate_log_head? _ (by simp)
  · intro f hlast hf
    simp [dispatch_update, hlast, hf]

/-- Witness for the amended C3 at a concrete one-flag iteration. -/
theorem dispatch_truncates_iff_last_flag_witness :
    ((["image"] : List String).getLast? = some "image" →
      dispatch_update [mUser] ["image"] mUser
        = truncate_log (strip_phase [mUser] ["image"] ++ [mUser]) ∧
      (dispatch_update [mUser] ["image"] mUser).length ≤ 61 ∧
      (dispatch_update [mUser] ["image"] mUser).head?
        = (strip_phase [mUser] ["image"] ++ [mUser]).head?) ∧
    (∀ f, (["image"] : List String).getLast? = some f → f ≠ "image" →
      dispatch_update [mUser] ["image"] mUser = strip_phase [mUser] ["image"] ++ [mUser]) :=
  dispatch_truncates_iff_last_flag [mUser] ["image"] mUser (by decide)

/-! ## Rate Limiter: `wait_until_itpm_reset` (agent.py lines 453–486)

Durations and timestamps are modelled as rationals (seconds).  The `ts`
argument is the reset instant already converted from its ISO-8601 string
(`datetime.fromisoformat`); `none` covers both a missing and a falsy
(empty) timestamp string.  The `"retry-after"` header value is the string
passed to `float(...)`: absent keys default to `"0"`, and a string that
`float` rejects is `malformed` (the `except ValueError` path). -/

/-- The `"retry-after"` header value as seen by `float(...)`. -/
inductive RetryAfterVal : Type
  | num (q : ℚ)
  | malformed
  deriving DecidableEq

/-- Round a duration up to millisecond precision:
`math.ceil(wait * 1000) / 1000`. -/
def ceilMs (w : ℚ) : ℚ := (Int.ceil (w * 1000) : ℚ) / 1000

theorem ceilMs_nonneg (w : ℚ) (h : 0 ≤ w) : 0 ≤ ceilMs w := by
  have h2 : (0:ℚ) ≤ w * 1000 := by positivity
  have h3 : (0:ℤ) ≤ Int.ceil (w * 1000) := Int.ceil_nonneg h2
  have h4 : (0:ℚ) ≤ (Int.ceil (w * 1000) : ℚ) := by exact_mod_cast h3
  rw [ceilMs]
  linarith

/-- Embedding of `wait_until_itpm_reset` (agent.py lines 453–486),
returning the duration the function sleeps.  Note that when a reset
timestamp is present, `fudge` is added inside the branch (line 475) and
then a second time by `wait = max(0.0, wait + fudge)` (line 482). -/
def wait_until_itpm_reset (retry_after : Option RetryAfterVal) (ts : Option ℚ)
    (now : ℚ) (fudge : ℚ) : ℚ :=
  let wait : ℚ :=
    match ts with
    | some reset => (reset - now) + fudge
    | none =>
      match retry_after with
      | some (.num q) => q
      | some .malformed => 0
      | none => 0
  ceilMs (max 0 (wait + fudge))

/-- Claim C2 counterexample: for `reset = now + 10` and `fudge = 1/2` the
claim predicts a wait of `10.5` s (millisecond-rounded), but the code
sleeps `11` s, because `fudge` is added twice in the timestamp branch. -/
theorem wait_double_fudge_cex :
    wait_until_itpm_reset none (some 10) 0 (1/2) = 11 ∧
    ceilMs (max 0 ((10 - 0) + 1/2)) = 21/2 ∧
    wait_until_itpm_reset none (some 10) 0 (1/2) ≠ ceilMs (max 0 ((10 - 0) + 1/2)) := by
  have h1 : wait_until_itpm_reset none (some 10) 0 (1/2) = 11 := by
    have : max (0:ℚ) (((10 - 0) + 1/2) + 1/2) = 11 := by norm_num
    rw [wait_until_itpm_reset]
    simp only [this]
    norm_num [ceilMs]
  have h2 : ceilMs (max 0 ((10 - 0 : ℚ) + 1/2)) = 21/2 := by
    have : max (0:ℚ) ((10 - 0) + 1/2) = 21/2 := by norm_num
    rw [this]
    norm_num [ceilMs]
  refine ⟨h1, h2, ?_⟩
  rw [h1, h2]
  norm_num

/-- Claim C2 (amended): the computed wait is
`max(0, (reset - now) + 2 * fudge)` rounded up to millisecond precision
when a reset timestamp is supplied (the safety fudge is added twice on
this path), else `max(0, retryAfterSeconds + fudge)` rounded up; for
`reset = now + 10` s and `fudge = 0.5` the wait is exactly `11` s; and
the wait is always non-negative whenever the rounding input is. -/
theorem wait_until_itpm_reset_formula (retry_after : Option RetryAfterVal)
    (ts : Option ℚ) (now fudge reset q : ℚ) :
    wait_until_itpm_reset retry_after (some reset) now fudge
      = ceilMs (max 0 ((reset - now) + 2 * fudge)) ∧
    wait_until_itpm_reset (some (.num q)) none now fudge
      = ceilMs (max 0 (q + fudge)) ∧
    wait_until_itpm_reset retry_after (some (now + 10)) now (1/2) = 11 ∧
    0 ≤ wait_until_itpm_reset retry_after ts now fudge := by
  refine ⟨?_, ?_, ?_, ?_⟩
  · simp only [wait_until_itpm_reset]
    congr 1
    ring_nf
  · simp only [wait_until_itpm_reset]
  · simp only [wait_until_itpm_reset]
    have : max (0:ℚ) (((now + 10 - now) + 1/2) + 1/2) = 11 := by norm_num
    rw [this]
    norm_num [ceilMs]
  · simp only [wait_until_itpm_reset]
    exact ceilMs_nonneg _ (le_max_left _ _)

/-! ## Throttling retry loop (agent.py lines 560–568)

The `while True` loop around `client.beta.messages.create`: a
`RateLimitError` is answered by `wait_until_itpm_reset(e.response.headers,
TIME_TO_WAIT)` and a retry.  `TIME_TO_WAIT` is a local variable of
`run_agent_loop` first assigned AFTER the loop (line 568), from the
successful response's `anthropic-ratelimit-input-tokens-reset` header, so
it is modelled as a possibly-unbound Python local. -/

/-- A Python local variable that may not have been assigned yet. -/
inductive PyVar (α : Type) : Type
  | unbound
  | bound (val : α)
  deriving DecidableEq

/-- Response headers as a string association list. -/
def lookupHeader (hs : List (String × String)) (k : String) : Option String :=
  match hs with
  | [] => none
  | (k', v) :: r => if k' = k then some v else lookupHeader r k

/-- One throttling failure: the headers of the rejected response. -/
structure ThrottleFailure : Type where
  headers : List (String × String)
  deriving DecidableEq

/-- Embedding of the retry loop (agent.py lines 560–568): the provider
rejects with each failure in `failures` in turn, then accepts with
`success_headers`.  Each rejection evaluates
`wait_until_itpm_reset(e.response.headers, TIME_TO_WAIT)`, which reads
the local `TIME_TO_WAIT`; reading an unbound local raises
`UnboundLocalError`, which no handler in `run_agent_loop` catches.  On
success the loop exits and line 568 rebinds `TIME_TO_WAIT` to the reset
header of the accepted response, returned here. -/
def attempt_request (failures : List ThrottleFailure)
    (success_headers : List (String × String))
    (TIME_TO_WAIT : PyVar (Option String)) : Except String (Option String) :=
  match failures with
  | [] => .ok (lookupHeader success_headers "anthropic-ratelimit-input-tokens-reset")
  | _f :: rest =>
    match TIME_TO_WAIT with
    | .unbound =>
      .error "UnboundLocalError: local variable TIME_TO_WAIT referenced before assignment"
    | .bound _ts => attempt_request rest success_headers TIME_TO_WAIT

/-- Claim C4 evidence: a throttling failure on the very first provider
request of the run — when `TIME_TO_WAIT` has never been assigned —
raises `UnboundLocalError` and terminates the run instead of sleeping
and retrying; once `TIME_TO_WAIT` is bound (any later iteration), the
retry loop does absorb the failure and succeeds. -/
theorem attempt_request_unbound_crash :
    attempt_request [⟨[("retry-after", "5")]⟩] [] PyVar.unbound
      = .error "UnboundLocalError: local variable TIME_TO_WAIT referenced before assignment" ∧
    attempt_request [⟨[("retry-after", "5")]⟩]
        [("anthropic-ratelimit-input-tokens-reset", "2025-01-01T00:00:00Z")]
        (PyVar.bound none)
      = .ok (some "2025-01-01T00:00:00Z") := by
  exact ⟨rfl, rfl⟩

/-! ## Action Dispatcher: `execute_computer_tool` (agent.py lines 205–358)

The desktop-automation primitives (`pyautogui`) and `time.sleep` are
abstracted as a fallible `Effector` record; an `.error e` models the
primitive raising, which the function's broad `except` converts into a
text error result.  The step-graph queries `get_prev_step`,
`get_next_step` and `get_curr_step` (agent.py lines 113–199) are embedded
over an abstract query result, with their sentinel fallbacks.  Dynamic
dict values are modelled at their tool-schema types, with `none` for an
absent (or `None`) key; the `isinstance` guards of the Python code then
coincide with `Option` matching. -/

/-- The two process-wide counters mutated by the dispatcher. -/
structure RunState : Type where
  PROCESSSTEP : Nat
  PROCESSSTEP_ID : Int
  deriving DecidableEq

/-- A normalized tool result payload: message text, or the screenshot
dict `{"type": "base64", "media_type": ..., "data": ...}`. -/
inductive Payload : Type
  | txt (s : String)
  | img (type media_type data : String)
  deriving DecidableEq

/-- The tuple returned by `execute_computer_tool`, plus the global state
as left by the call. -/
structure ToolResult : Type where
  rtype : String
  rdata : Payload
  is_error : Bool
  state : RunState
  deriving DecidableEq

/-- The step-graph collaborator: each Cypher query returns at most one
`(id, description)` row. -/
structure StepGraph : Type where
  prevQ : Int → Option (Int × String)
  nextQ : Int → Option (Int × String)
  currQ : Int → Option (Int × String)

/-- Embedding of `get_prev_step` (agent.py lines 113–140). -/
def get_prev_step (graph : StepGraph) (step_id : Int) : Int × String :=
  match graph.prevQ step_id with
  | none => (step_id - 1, "Es existiert kein vorheriger Schritt. Gehe zum letzten Schritt zurück.")
  | some r => r

/-- Embedding of `get_next_step` (agent.py lines 143–170). -/
def get_next_step (graph : StepGraph) (step_id : Int) : Int × String :=
  match graph.nextQ step_id with
  | none => (step_id + 1, "Es existiert kein nachfolgender Schritt. Gehe zum letzten Schritt zurück.")
  | some r => r

/-- Embedding of `get_curr_step` (agent.py lines 172–199). -/
def get_curr_step (graph : StepGraph) (step_id : Int) : Int × String :=
  match graph.currQ step_id with
  | none => (step_id, "Der aktuellen Schritt existiert nicht. Gehe zum letzten Schritt zurück.")
  | some r => r

/-- Abstract desktop effector: each primitive either succeeds or raises
(with the exception text). -/
structure Effector : Type where
  screenshot : Except String String
  moveTo : List Int → Except String Unit
  click : Option (Int × Int) → String → Except String Unit
  doubleClick : Option (Int × Int) → Except String Unit
  write : String → Except String Unit
  press : String → Except String Unit
  scroll : Int → Except String Unit
  hscroll : Int → Except String Unit
  sleepFor : ℚ → Except String Unit

/-- The keys of the `tool_input` dict read by the dispatcher, at their
tool-schema types; `none` models an absent key. -/
structure ToolInput : Type where
  action : Option String
  text : Option String
  coordinate : Option (List Int)
  scroll_direction : Option String
  scroll_amount : Option Int
  duration : Option ℚ
  deriving DecidableEq

/-- Textual rendering of an optional string, standing in for Python repr. -/
def optStr : Option String → String
  | none => "None"
  | some s => s

/-- Rendering of the input dict used by the error message of the final
`else` branch (stands in for the f-string interpolation of the dict). -/
def ToolInput.render (inp : ToolInput) : String :=
  "\x7baction: " ++ optStr inp.action ++ ", text: " ++ optStr inp.text ++ "\x7d"

/-- Embedding of `execute_computer_tool` (agent.py lines 205–358).  The
`elif` chain is mirrored branch by branch.  A recognized action whose
extra `isinstance` guard fails falls through every remaining `elif` (none
of which can match the same action string) into the final `else`, which
is therefore entered directly here.  Note that the final `else` executes
`PROCESSSTEP += 1` before returning its error, and that the three
step-graph navigation branches return success without incrementing
`PROCESSSTEP`. -/
def execute_computer_tool (eff : Effector) (tool_input : ToolInput)
    (graph_db : Option StepGraph) (st : RunState) : ToolResult :=
  let action := tool_input.action
  let text := tool_input.text
  let coord := tool_input.coordinate
  let scroll_dir := tool_input.scroll_direction
  let scroll_amt := tool_input.scroll_amount
  let duration := tool_input.duration
  let fail : String → ToolResult := fun e => ⟨"text", .txt e, true, st⟩
  let bump : RunState := { st with PROCESSSTEP := st.PROCESSSTEP + 1 }
  let okText : ToolResult := ⟨"text", .txt "", false, bump⟩
  let unknown : ToolResult :=
    ⟨"text", .txt ("Unbekannte Aktion oder fehlende Parameter: " ++ tool_input.render),
      true, bump⟩
  let settle : Except String Unit → ToolResult := fun r =>
    match r with
    | .error e => fail e
    | .ok _ =>
      match eff.sleepFor (1/5) with
      | .error e => fail e
      | .ok _ => okText
  if action = some "screenshot" then
    match eff.screenshot with
    | .error e => fail e
    | .ok encoded => ⟨"image", .img "base64" "image/png" encoded, false, bump⟩
  else if action = some "mouse_move" then
    match coord with
    | some l => settle (eff.moveTo l)
    | none => unknown
  else if action = some "left_click" then
    match coord with
    | some (x :: y :: _) => settle (eff.click (some (x, y)) "left")
    | some [_x] => fail "IndexError: list index out of range"
    | some [] => settle (eff.click none "left")
    | none => settle (eff.click none "left")
  else if action = some "right_click" then
    match coord with
    | some (x :: y :: _) => settle (eff.click (some (x, y)) "right")
    | some [_x] => fail "IndexError: list index out of range"
    | some [] => settle (eff.click none "right")
    | none => settle (eff.click none "right")
  else if action = some "double_click" then
    match coord with
    | some (x :: y :: _) => settle (eff.doubleClick (some (x, y)))
    | some [_x] => fail "IndexError: list index out of range"
    | some [] => settle (eff.doubleClick none)
    | none => settle (eff.doubleClick none)
  else if action = some "type" then
    match text with
    | some s => settle (eff.write s)
    | none => unknown
  else if action = some "key" then
    match text with
    | some s => settle (eff.press s)
    | none => unknown
  else if action = some "scroll" then
    match scroll_dir with
    | some dir =>
      if dir = "" then unknown
      else
        let amt : Int := 100 * (match scroll_amt with
          | some q => if q = 0 then 0 else q
          | none => 0)
        settle (if dir = "up" then eff.scroll amt
          else if dir = "down" then eff.scroll (-amt)
          else if dir = "left" then eff.hscroll (-amt)
          else eff.hscroll amt)
    | none => unknown
  else if action = some "wait" then
    match duration with
    | some d =>
      match eff.sleepFor d with
      | .error e => fail e
      | .ok _ => okText
    | none => unknown
  else if action = some "prev" then
    match graph_db with
    | none => fail "AttributeError: NoneType object has no attribute run"
    | some g =>
      let r := get_prev_step g st.PROCESSSTEP_ID
      ⟨"text", .txt r.2, false, { st with PROCESSSTEP_ID := r.1 }⟩
  else if action = some "next" then
    match graph_db with
    | none => fail "AttributeError: NoneType object has no attribute run"
    | some g =>
      let r := get_next_step g st.PROCESSSTEP_ID
      ⟨"text", .txt r.2, false, { st with PROCESSSTEP_ID := r.1 }⟩
  else if action = some "curr" then
    match graph_db with
    | none => fail "AttributeError: NoneType object has no attribute run"
    | some g =>
      let r := get_curr_step g st.PROCESSSTEP_ID
      ⟨"text", .txt r.2, false, { st with PROCESSSTEP_ID := r.1 }⟩
  else unknown

/-- Input dict with every key absent. -/
def noInput : ToolInput := ⟨none, none, none, none, none, none⟩

/-- An unrecognized action. -/
def unknownInput : ToolInput := { noInput with action := some "open_app" }

/-- The `prev` navigation action. -/
def prevInput : ToolInput := { noInput with action := some "prev" }

/-- The `screenshot` action. -/
def screenshotInput : ToolInput := { noInput with action := some "screenshot" }

/-- An effector whose primitives all succeed. -/
def effOk : Effector where
  screenshot := .ok "IMG"
  moveTo := fun _ => .ok ()
  click := fun _ _ => .ok ()
  doubleClick := fun _ => .ok ()
  write := fun _ => .ok ()
  press := fun _ => .ok ()
  scroll := fun _ => .ok ()
  hscroll := fun _ => .ok ()
  sleepFor := fun _ => .ok ()

/-- A step graph in which every query succeeds. -/
def gTest : StepGraph where
  prevQ := fun _ => some (3, "Schritt drei")
  nextQ := fun _ => some (5, "Schritt fuenf")
  currQ := fun _ => some (4, "Schritt vier")

/-- Claim C1 evidence: a successful `screenshot` increments `PROCESSSTEP`
once as claimed, but an unrecognized action also increments the counter
while returning its `isError = true` payload, and the recognized and
successful `prev` navigation action does not increment the counter at
all — contradicting the claim (and the function's own docstring, which
says the counter grows once per successful action). -/
theorem execute_computer_tool_counter_divergence :
    (execute_computer_tool effOk screenshotInput none ⟨0, 1⟩).state.PROCESSSTEP = 1 ∧
    (execute_computer_tool effOk screenshotInput none ⟨0, 1⟩).is_error = false ∧
    (execute_computer_tool effOk unknownInput none ⟨0, 1⟩).is_error = true ∧
    (execute_computer_tool effOk unknownInput none ⟨0, 1⟩).state.PROCESSSTEP = 1 ∧
    (execute_computer_tool effOk prevInput (some gTest) ⟨0, 1⟩).is_error = false ∧
    (execute_computer_tool effOk prevInput (some gTest) ⟨0, 1⟩).state.PROCESSSTEP = 0 :=
  ⟨rfl, rfl, rfl, rfl, rfl, rfl⟩

/-! ## Stream Decoder: `collect_from_stream` (agent.py lines 360–423)

Content blocks are Python dicts created by `ev.content_block.to_dict()`
and mutated in place; `assistant_blocks` and `open_blocks` hold
references to the same dict objects.  This sharing is modelled by a store
of block values indexed by slots: `openB` maps a stream index to its
slot, `order` lists slots in `assistant_blocks` order, and `toolSlots`
lists the slots appended to `tool_requests`.  `json.loads` is abstracted
as a `parse : String → Option J` parameter (`none` models
`json.JSONDecodeError`), and the Python `KeyError` raised by
`open_blocks[ev.index]` or `partial_json[ev.index]` on a missing key is
the `DecErr.keyError` result. -/

/-- A content block dict: its `"type"`, the optional `"text"`, `"id"`,
`"name"` and parsed `"input"` entries. -/
structure CBlock (J : Type) : Type where
  type : String
  text : Option String
  id : Option String
  name : Option String
  input : Option J
  deriving DecidableEq

/-- The payload of a `content_block_delta` event. -/
inductive Delta : Type
  | textDelta (s : String)
  | inputJsonDelta (s : String)
  | otherDelta
  deriving DecidableEq

/-- One provider stream event, as dispatched on `ev.type`. -/
inductive StreamEvent (J : Type) : Type
  | content_block_start (index : Nat) (stub : CBlock J)
  | content_block_delta (index : Nat) (delta : Delta)
  | content_block_stop (index : Nat)
  | tool_use_event (blk : CBlock J)
  | message_stop
  | other_event
  deriving DecidableEq

/-- A fatal decode failure: the `KeyError` raised when an event references
an index with no registered open block (or no JSON accumulator). -/
inductive DecErr : Type
  | keyError (index : Nat)
  deriving DecidableEq

/-- Decoder state: the block store plus the bookkeeping dicts/lists of
`collect_from_stream`. -/
structure DecState (J : Type) : Type where
  store : List (CBlock J)
  openB : List (Nat × Nat)
  order : List Nat
  accJson : List (Nat × String)
  toolSlots : List Nat

/-- Default block used with `getD`; slots produced by the decoder are
always in range, so it is never observed. -/
def defBlock {J : Type} : CBlock J := ⟨"", none, none, none, none⟩

/-- The empty decoder state. -/
def initState {J : Type} : DecState J := ⟨[], [], [], [], []⟩

/-- Read the block at a store slot (slots held in the state are always in
range). -/
def getB {J : Type} (l : List (CBlock J)) (n : Nat) : CBlock J :=
  l[n]?.getD defBlock

/-- One iteration of the event loop of `collect_from_stream`
(agent.py lines 386–421), for every event type except `message_stop`
(which breaks the loop and is handled by `collectAux`). -/
def step {J : Type} (emptyJ : J) (parse : String → Option J) (s : DecState J) :
    StreamEvent J → Except DecErr (DecState J)
  | .content_block_start i stub =>
    .ok { store := s.store ++ [stub],
          openB := (i, s.store.length) :: s.openB,
          order := s.order ++ [s.store.length],
          accJson := if stub.type = "tool_use" then (i, "") :: s.accJson else s.accJson,
          toolSlots := s.toolSlots }
  | .content_block_delta i d =>
    match lookupA s.openB i with
    | none => .error (.keyError i)
    | some slot =>
      match d with
      | .textDelta t =>
        .ok { s with store := modifyAt s.store slot (fun b => { b with text := some (b.text.getD "" ++ t) }) }
      | .inputJsonDelta v =>
        match lookupA s.accJson i with
        | none => .error (.keyError i)
        | some a => .ok { s with accJson := (i, a ++ v) :: s.accJson }
      | .otherDelta => .ok s
  | .content_block_stop i =>
    match lookupA s.openB i with
    | none => .error (.keyError i)
    | some slot =>
      if (getB s.store slot).type = "tool_use" then
        match lookupA s.accJson i with
        | none => .error (.keyError i)
        | some a =>
          .ok { s with
            store := modifyAt s.store slot (fun b => { b with input := some ((parse a).getD emptyJ) }),
            toolSlots := s.toolSlots ++ [slot] }
      else .ok s
  | .tool_use_event blk =>
    .ok { s with
      store := s.store ++ [blk],
      order := s.order ++ [s.store.length],
      toolSlots := s.toolSlots ++ [s.store.length] }
  | .message_stop => .ok s
  | .other_event => .ok s

/-- The event loop: fold `step` over the events, breaking at
`message_stop` and propagating the first uncaught exception. -/
def collectAux {J : Type} (emptyJ : J) (parse : String → Option J) :
    DecState J → List (StreamEvent J) → Except DecErr (DecState J)
  | s, [] => .ok s
  | s, .message_stop :: _ => .ok s
  | s, ev :: rest =>
    match step emptyJ parse s ev with
    | .error e => .error e
    | .ok s' => collectAux emptyJ parse s' rest

/-- Embedding of `collect_from_stream` (agent.py lines 360–423): returns
`(assistant_blocks, tool_requests)`, reading each listed slot back from
the final store (mutations of shared dicts are visible in both lists). -/
def collect_from_stream {J : Type} (emptyJ : J) (parse : String → Option J)
    (events : List (StreamEvent J)) :
    Except DecErr (List (CBlock J) × List (CBlock J)) :=
  match collectAux emptyJ parse initState events with
  | .error e => .error e
  | .ok s =>
    .ok (s.order.map (fun t => getB s.store t),
         s.toolSlots.map (fun t => getB s.store t))

/-! ### Specification functions over the consumed event prefix

Each of the following recursions stops at the first `message_stop`,
mirroring the `break` of the event loop. -/

/-- The `(index, stub)` pairs of the `content_block_start` events consumed. -/
def startsOf {J : Type} : List (StreamEvent J) → List (Nat × CBlock J)
  | [] => []
  | .message_stop :: _ => []
  | .content_block_start i stub :: r => (i, stub) :: startsOf r
  | _ :: r => startsOf r

/-- Concatenation, in arrival order, of the `text_delta` fragments
consumed for stream index `idx`. -/
def textFor {J : Type} (idx : Nat) : List (StreamEvent J) → String
  | [] => ""
  | .message_stop :: _ => ""
  | .content_block_delta i (.textDelta t) :: r =>
    if i = idx then t ++ textFor idx r else textFor idx r
  | _ :: r => textFor idx r

/-- Concatenation, in arrival order, of the `input_json_delta` fragments
consumed for stream index `idx`. -/
def jsonFor {J : Type} (idx : Nat) : List (StreamEvent J) → String
  | [] => ""
  | .message_stop :: _ => ""
  | .content_block_delta i (.inputJsonDelta v) :: r =>
    if i = idx then v ++ jsonFor idx r else jsonFor idx r
  | _ :: r => jsonFor idx r

/-- The indices of the `content_block_stop` events consumed. -/
def stopsOf {J : Type} : List (StreamEvent J) → List Nat
  | [] => []
  | .message_stop :: _ => []
  | .content_block_stop i :: r => i :: stopsOf r
  | _ :: r => stopsOf r

/-- Well-formedness of the remaining events, given the `(index, type)`
pairs already started and the indices already stopped: every
`content_block_start` uses a fresh index and an empty (or absent) stub
text; every `content_block_delta` and `content_block_stop` references a
started, not-yet-stopped index; `input_json_delta` fragments only target
tool-use blocks; each index is stopped at most once; the raw `tool_use`
event type does not occur.  This is the ordering contract of the provider
stream (§3 of the specification) plus the provider convention that stubs
arrive empty. -/
def wfFrom {J : Type} (started : List (Nat × String)) (stopped : List Nat) :
    List (StreamEvent J) → Bool
  | [] => true
  | .message_stop :: _ => true
  | .content_block_start i stub :: r =>
    (lookupA started i).isNone && (stub.text.getD "" == "")
      && wfFrom ((i, stub.type) :: started) stopped r
  | .content_block_delta i d :: r =>
    (match lookupA started i with
     | none => false
     | some ty =>
       match d with
       | .inputJsonDelta _ => ty == "tool_use"
       | _ => true)
    && !(decide (i ∈ stopped)) && wfFrom started stopped r
  | .content_block_stop i :: r =>
    (lookupA started i).isSome && !(decide (i ∈ stopped))
      && wfFrom started (i :: stopped) r
  | .tool_use_event _ :: _ => false
  | .other_event :: r => wfFrom started stopped r

/-- Does some consumed `content_block_delta`/`content_block_stop`
reference an index that was not started earlier in the consumed prefix
(`started` lists indices started before the remaining events)? -/
def hasBadRef {J : Type} (started : List Nat) : List (StreamEvent J) → Bool
  | [] => false
  | .message_stop :: _ => false
  | .content_block_start i _ :: r => hasBadRef (i :: started) r
  | .content_block_delta i _ :: r => !(decide (i ∈ started)) || hasBadRef started r
  | .content_block_stop i :: r => !(decide (i ∈ started)) || hasBadRef started r
  | _ :: r => hasBadRef started r

/-- Like `hasBadRef`, but scanning the whole event sequence, including
events delivered after a `message_stop` — the literal reading of the
claim's "some index is referenced before its `content_block_start`". -/
def refBeforeStart {J : Type} (started : List Nat) : List (StreamEvent J) → Bool
  | [] => false
  | .content_block_start i _ :: r => refBeforeStart (i :: started) r
  | .content_block_delta i _ :: r => !(decide (i ∈ started)) || refBeforeStart started r
  | .content_block_stop i :: r => !(decide (i ∈ started)) || refBeforeStart started r
  | _ :: r => refBeforeStart started r

theorem collectAux_cons_ok {J : Type} (emptyJ : J) (parse : String → Option J)
    (s s' : DecState J) (ev : StreamEvent J) (rest : List (StreamEvent J))
    (hev : ev ≠ StreamEvent.message_stop) (h : step emptyJ parse s ev = .ok s') :
    collectAux emptyJ parse s (ev :: rest) = collectAux emptyJ parse s' rest := by
  cases ev with
  | message_stop => exact absurd rfl hev
  | content_block_start i stub => simp only [collectAux, h]
  | content_block_delta i d => simp only [collectAux, h]
  | content_block_stop i => simp only [collectAux, h]
  | tool_use_event blk => simp only [collectAux, h]
  | other_event => simp only [collectAux, h]

theorem collectAux_cons_err {J : Type} (emptyJ : J) (parse : String → Option J)
    (s : DecState J) (ev : StreamEvent J) (rest : List (StreamEvent J)) (e : DecErr)
    (hev : ev ≠ StreamEvent.message_stop) (h : step emptyJ parse s ev = .error e) :
    collectAux emptyJ parse s (ev :: rest) = .error e := by
  cases ev with
  | message_stop => exact absurd rfl hev
  | content_block_start i stub => simp only [collectAux, h]
  | content_block_delta i d => simp only [collectAux, h]
  | content_block_stop i => simp only [collectAux, h]
  | tool_use_event blk => simp only [collectAux, h]
  | other_event => simp only [collectAux, h]

theorem modifyAt_getElem? {α : Type} (l : List α) (n : Nat) (f : α → α) (j : Nat) :
    (modifyAt l n f)[j]? = if j = n then l[n]?.map f else l[j]? := by
  induction l generalizing n j with
  | nil => simp [modifyAt]
  | cons x r ih =>
    cases n with
    | zero =>
      cases j with
      | zero => simp [modifyAt]
      | succ j' => simp [modifyAt]
    | succ m =>
      cases j with
      | zero => simp [modifyAt]
      | succ j' =>
        simp only [modifyAt, List.getElem?_cons_succ]
        rw [ih]
        simp [Nat.succ_eq_add_one]

theorem getB_append_lt {J : Type} (l l2 : List (CBlock J)) (n : Nat) (h : n < l.length) :
    getB (l ++ l2) n = getB l n := by
  simp [getB, List.getElem?_append_left h]

theorem getB_concat_self {J : Type} (l : List (CBlock J)) (b : CBlock J) :
    getB (l ++ [b]) l.length = b := by
  simp [getB, List.getElem?_concat_length]

theorem getB_modifyAt_self {J : Type} (l : List (CBlock J)) (n : Nat)
    (f : CBlock J → CBlock J) (h : n < l.length) :
    getB (modifyAt l n f) n = f (getB l n) := by
  have hb : l[n]? = some l[n] := List.getElem?_eq_getElem h
  simp [getB, modifyAt_getElem?, hb]

theorem getB_modifyAt_ne {J : Type} (l : List (CBlock J)) (n : Nat)
    (f : CBlock J → CBlock J) (j : Nat) (h : j ≠ n) :
    getB (modifyAt l n f) j = getB l j := by
  simp [getB, modifyAt_getElem?, h]

theorem wf_start_info {J : Type} :
    ∀ (r : List (StreamEvent J)) (started : List (Nat × String)) (stopped : List Nat)
      (k : Nat) (i : Nat) (stub : CBlock J),
    wfFrom started stopped r = true → (startsOf r)[k]? = some (i, stub) →
    lookupA started i = none ∧ stub.text.getD "" = "" := by
  intro r
  induction r with
  | nil => intro started stopped k i stub _ hk; simp [startsOf] at hk
  | cons ev r' ih =>
    intro started stopped k i stub hwf hk
    cases ev with
    | content_block_start j stub' =>
      simp only [wfFrom, Bool.and_eq_true] at hwf
      rcases hwf with ⟨⟨hfresh, hempty⟩, hwf'⟩
      cases k with
      | zero =>
        simp only [startsOf, List.getElem?_cons_zero] at hk
        have hpair : (j, stub') = (i, stub) := Option.some.inj hk
        rw [Prod.mk.injEq] at hpair
        obtain ⟨hj, hstub⟩ := hpair
        subst hj; subst hstub
        refine ⟨?_, ?_⟩
        · exact Option.isNone_iff_eq_none.mp hfresh
        · exact eq_of_beq hempty
      | succ k' =>
        simp only [startsOf, List.getElem?_cons_succ] at hk
        rcases ih ((j, stub'.type) :: started) stopped k' i stub hwf' hk with ⟨hn, he⟩
        refine ⟨?_, he⟩
        by_cases hji : j = i
        · simp [lookupA, hji] at hn
        · simpa [lookupA, hji] using hn
    | content_block_delta j d =>
      simp only [wfFrom, Bool.and_eq_true] at hwf
      exact ih started stopped k i stub hwf.2 hk
    | content_block_stop j =>
      simp only [wfFrom, Bool.and_eq_true] at hwf
      exact ih started (j :: stopped) k i stub hwf.2 hk
    | tool_use_event blk => simp [wfFrom] at hwf
    | message_stop => simp [startsOf] at hk
    | other_event =>
      simp only [wfFrom] at hwf
      exact ih started stopped k i stub hwf hk

theorem wf_stopped_quiet {J : Type} :
    ∀ (r : List (StreamEvent J)) (started : List (Nat × String)) (stopped : List Nat)
      (i : Nat),
    wfFrom started stopped r = true → i ∈ stopped →
    textFor i r = "" ∧ jsonFor i r = "" ∧ i ∉ stopsOf r := by
  intro r
  induction r with
  | nil => intro started stopped i _ _; exact ⟨rfl, rfl, by simp [stopsOf]⟩
  | cons ev r' ih =>
    intro started stopped i hwf hmem
    cases ev with
    | content_block_start j stub' =>
      simp only [wfFrom, Bool.and_eq_true] at hwf
      rcases ih ((j, stub'.type) :: started) stopped i hwf.2 hmem with ⟨h1, h2, h3⟩
      exact ⟨h1, h2, h3⟩
    | content_block_delta j d =>
      simp only [wfFrom, Bool.and_eq_true, Bool.not_eq_true', decide_eq_false_iff_not] at hwf
      rcases hwf with ⟨⟨_, hnst⟩, hwf'⟩
      rcases ih started stopped i hwf' hmem with ⟨h1, h2, h3⟩
      have hji : j ≠ i := fun h => hnst (h ▸ hmem)
      cases d with
      | textDelta t => exact ⟨by simp [textFor, hji, h1], by simpa [jsonFor] using h2, h3⟩
      | inputJsonDelta v => exact ⟨by simpa [textFor] using h1, by simp [jsonFor, hji, h2], h3⟩
      | otherDelta => exact ⟨by simpa [textFor] using h1, by simpa [jsonFor] using h2, h3⟩
    | content_block_stop j =>
      simp only [wfFrom, Bool.and_eq_true, Bool.not_eq_true', decide_eq_false_iff_not] at hwf
      rcases hwf with ⟨⟨_, hnst⟩, hwf'⟩
      have hji : j ≠ i := fun h => hnst (h ▸ hmem)
      rcases ih started (j :: stopped) i hwf' (List.mem_cons_of_mem _ hmem) with ⟨h1, h2, h3⟩
      refine ⟨by simpa [textFor] using h1, by simpa [jsonFor] using h2, ?_⟩
      simp only [stopsOf, List.mem_cons]
      rintro (h | h)
      · exact hji h.symm
      · exact h3 h
    | tool_use_event blk => simp [wfFrom] at hwf
    | message_stop => exact ⟨rfl, rfl, by simp [stopsOf]⟩
    | other_event =>
      simp only [wfFrom] at hwf
      exact ih started stopped i hwf hmem

theorem collectAux_bad_ref {J : Type} (emptyJ : J) (parse : String → Option J) :
    ∀ (rest : List (StreamEvent J)) (s : DecState J) (started : List Nat),
    (∀ i, i ∉ started → lookupA s.openB i = none) →
    hasBadRef started rest = true →
    ∃ e, collectAux emptyJ parse s rest = .error e := by
  intro rest
  induction rest with
  | nil => intro s started _ hbad; simp [hasBadRef] at hbad
  | cons ev r ih =>
    intro s started hopen hbad
    cases ev with
    | content_block_start i stub =>
      have hbad' : hasBadRef (i :: started) r = true := hbad
      have hopen' : ∀ j, j ∉ (i :: started) →
          lookupA ((i, s.store.length) :: s.openB) j = none := by
        intro j hj
        have hji : ¬ i = j := fun h => hj (h ▸ List.mem_cons_self _ _)
        have hjs : j ∉ started := fun h => hj (List.mem_cons_of_mem _ h)
        simp only [lookupA, if_neg hji]
        exact hopen j hjs
      have hstep : step emptyJ parse s (StreamEvent.content_block_start i stub)
          = .ok (DecState.mk (s.store ++ [stub]) ((i, s.store.length) :: s.openB)
              (s.order ++ [s.store.length])
              (if stub.type = "tool_use" then (i, "") :: s.accJson else s.accJson)
              s.toolSlots) := rfl
      rcases ih (DecState.mk (s.store ++ [stub]) ((i, s.store.length) :: s.openB)
          (s.order ++ [s.store.length])
          (if stub.type = "tool_use" then (i, "") :: s.accJson else s.accJson)
          s.toolSlots) (i :: started) hopen' hbad' with ⟨e, he⟩
      refine ⟨e, ?_⟩
      rw [collectAux_cons_ok emptyJ parse s _ _ r (by simp) hstep]
      exact he
    | content_block_delta i d =>
      simp only [hasBadRef, Bool.or_eq_true, Bool.not_eq_true', decide_eq_false_iff_not] at hbad
      by_cases hmem : i ∈ started
      · have hbad' : hasBadRef started r = true := by
          rcases hbad with h | h
          · exact absurd hmem h
          · exact h
        cases hlk : lookupA s.openB i with
        | none =>
          have hstep : step emptyJ parse s (StreamEvent.content_block_delta i d)
              = .error (.keyError i) := by
            cases d <;> simp [step, hlk]
          exact ⟨.keyError i, collectAux_cons_err emptyJ parse s _ r _ (by simp) hstep⟩
        | some slot =>
          cases d with
          | textDelta t =>
            have hstep : step emptyJ parse s (StreamEvent.content_block_delta i (.textDelta t))
                = .ok (DecState.mk
                    (modifyAt s.store slot (fun b => { b with text := some (b.text.getD "" ++ t) }))
                    s.openB s.order s.accJson s.toolSlots) := by
              simp [step, hlk]
            rcases ih (DecState.mk
                (modifyAt s.store slot (fun b => { b with text := some (b.text.getD "" ++ t) }))
                s.openB s.order s.accJson s.toolSlots) started hopen hbad' with ⟨e, he⟩
            refine ⟨e, ?_⟩
            rw [collectAux_cons_ok emptyJ parse s _ _ r (by simp) hstep]
            exact he
          | inputJsonDelta v =>
            cases hac : lookupA s.accJson i with
            | none =>
              have hstep : step emptyJ parse s
                  (StreamEvent.content_block_delta i (.inputJsonDelta v))
                  = .error (.keyError i) := by
                simp [step, hlk, hac]
              exact ⟨.keyError i, collectAux_cons_err emptyJ parse s _ r _ (by simp) hstep⟩
            | some a =>
              have hstep : step emptyJ parse s
                  (StreamEvent.content_block_delta i (.inputJsonDelta v))
                  = .ok (DecState.mk s.store s.openB s.order ((i, a ++ v) :: s.accJson)
                      s.toolSlots) := by
                simp [step, hlk, hac]
              rcases ih (DecState.mk s.store s.openB s.order ((i, a ++ v) :: s.accJson)
                  s.toolSlots) started hopen hbad' with ⟨e, he⟩
              refine ⟨e, ?_⟩
              rw [collectAux_cons_ok emptyJ parse s _ _ r (by simp) hstep]
              exact he
          | otherDelta =>
            have hstep : step emptyJ parse s (StreamEvent.content_block_delta i .otherDelta)
                = .ok s := by
              simp [step, hlk]
            rcases ih s started hopen hbad' with ⟨e, he⟩
            refine ⟨e, ?_⟩
            rw [collectAux_cons_ok emptyJ parse s _ _ r (by simp) hstep]
            exact he
      · have hlk : lookupA s.openB i = none := hopen i hmem
        have hstep : step emptyJ parse s (StreamEvent.content_block_delta i d)
            = .error (.keyError i) := by
          cases d <;> simp [step, hlk]
        exact ⟨.keyError i, collectAux_cons_err emptyJ parse s _ r _ (by simp) hstep⟩
    | content_block_stop i =>
      simp only [hasBadRef, Bool.or_eq_true, Bool.not_eq_true', decide_eq_false_iff_not] at hbad
      by_cases hmem : i ∈ started
      · have hbad' : hasBadRef started r = true := by
          rcases hbad with h | h
          · exact absurd hmem h
          · exact h
        cases hlk : lookupA s.openB i with
        | none =>
          have hstep : step emptyJ parse s (StreamEvent.content_block_stop i)
              = .error (.keyError i) := by
            simp [step, hlk]
          exact ⟨.keyError i, collectAux_cons_err emptyJ parse s _ r _ (by simp) hstep⟩
        | some slot =>
          by_cases hty : (getB s.store slot).type = "tool_use"
          · cases hac : lookupA s.accJson i with
            | none =>
              have hstep : step emptyJ parse s (StreamEvent.content_block_stop i)
                  = .error (.keyError i) := by
                simp [step, hlk, hty, hac]
              exact ⟨.keyError i, collectAux_cons_err emptyJ parse s _ r _ (by simp) hstep⟩
            | some a =>
              have hstep : step emptyJ parse s (StreamEvent.content_block_stop i)
                  = .ok (DecState.mk
                      (modifyAt s.store slot (fun b => { b with input := some ((parse a).getD emptyJ) }))
                      s.openB s.order s.accJson (s.toolSlots ++ [slot])) := by
                simp [step, hlk, hty, hac]
              rcases ih (DecState.mk
                  (modifyAt s.store slot (fun b => { b with input := some ((parse a).getD emptyJ) }))
                  s.openB s.order s.accJson (s.toolSlots ++ [slot])) started hopen hbad'
                with ⟨e, he⟩
              refine ⟨e, ?_⟩
              rw [collectAux_cons_ok emptyJ parse s _ _ r (by simp) hstep]
              exact he
          · have hstep : step emptyJ parse s (StreamEvent.content_block_stop i) = .ok s := by
              simp [step, hlk, hty]
            rcases ih s started hopen hbad' with ⟨e, he⟩
            refine ⟨e, ?_⟩
            rw [collectAux_cons_ok emptyJ parse s _ _ r (by simp) hstep]
            exact he
      · have hlk : lookupA s.openB i = none := hopen i hmem
        have hstep : step emptyJ parse s (StreamEvent.content_block_stop i)
            = .error (.keyError i) := by
          simp [step, hlk]
        exact ⟨.keyError i, collectAux_cons_err emptyJ parse s _ r _ (by simp) hstep⟩
    | tool_use_event blk =>
      have hbad' : hasBadRef started r = true := hbad
      have hstep : step emptyJ parse s (StreamEvent.tool_use_event blk)
          = .ok (DecState.mk (s.store ++ [blk]) s.openB (s.order ++ [s.store.length])
              s.accJson (s.toolSlots ++ [s.store.length])) := rfl
      rcases ih (DecState.mk (s.store ++ [blk]) s.openB (s.order ++ [s.store.length])
          s.accJson (s.toolSlots ++ [s.store.length])) started hopen hbad' with ⟨e, he⟩
      refine ⟨e, ?_⟩
      rw [collectAux_cons_ok emptyJ parse s _ _ r (by simp) hstep]
      exact he
    | message_stop =>
      simp [hasBadRef] at hbad
    | other_event =>
      have hbad' : hasBadRef started r = true := hbad
      have hstep : step emptyJ parse s StreamEvent.other_event = .ok s := rfl
      rcases ih s started hopen hbad' with ⟨e, he⟩
      refine ⟨e, ?_⟩
      rw [collectAux_cons_ok emptyJ parse s _ _ r (by simp) hstep]
      exact he

/-- Claim C8 (amended): if, among the events the decoder consumes (those
preceding the first `message_stop`), some index is referenced by a
`content_block_delta` or `content_block_stop` before its
`content_block_start`, then `collect_from_stream` reports a fatal decode
error (the `KeyError` aborts the run) rather than silently decoding. -/
theorem collect_bad_ref_errors {J : Type} (emptyJ : J) (parse : String → Option J)
    (events : List (StreamEvent J)) (h : hasBadRef [] events = true) :
    ∃ e, collect_from_stream emptyJ parse events = .error e := by
  rcases collectAux_bad_ref emptyJ parse events initState []
      (fun i _ => rfl) h with ⟨e, he⟩
  exact ⟨e, by simp [collect_from_stream, he]⟩

theorem collectAux_wf_spec {J : Type} (emptyJ : J) (parse : String → Option J) :
    ∀ (rest : List (StreamEvent J)) (store : List (CBlock J)) (openB : List (Nat × Nat))
      (order : List Nat) (accJson : List (Nat × String)) (toolSlots : List Nat)
      (started : List (Nat × String)) (stopped : List Nat),
    wfFrom started stopped rest = true →
    (∀ i ty, lookupA started i = some ty →
      ∃ slot, lookupA openB i = some slot ∧ slot < store.length ∧
        (getB store slot).type = ty) →
    (∀ i, lookupA started i = none → lookupA openB i = none) →
    (∀ i j si sj, lookupA openB i = some si → lookupA openB j = some sj →
      i ≠ j → si ≠ sj) →
    (∀ i, lookupA started i = some "tool_use" → (lookupA accJson i).isSome) →
    ∃ store' openB' order' accJson' toolSlots',
      collectAux emptyJ parse (DecState.mk store openB order accJson toolSlots) rest
        = .ok (DecState.mk store' openB' order' accJson' toolSlots') ∧
      store'.length = store.length + (startsOf rest).length ∧
      (order = List.range store.length → order' = List.range store'.length) ∧
      (∀ t, t ∈ toolSlots → t ∈ toolSlots') ∧
      (∀ i slot, lookupA openB i = some slot → slot < store.length →
        ((getB store' slot).type = (getB store slot).type ∧
         (getB store' slot).text.getD ""
           = (getB store slot).text.getD "" ++ textFor i rest ∧
         (i ∈ stopsOf rest → (getB store slot).type = "tool_use" →
           (∀ a, lookupA accJson i = some a →
             (getB store' slot).input = some ((parse (a ++ jsonFor i rest)).getD emptyJ)) ∧
           slot ∈ toolSlots') ∧
         (i ∉ stopsOf rest → (getB store' slot).input = (getB store slot).input))) ∧
      (∀ k i stub, (startsOf rest)[k]? = some (i, stub) →
        ((getB store' (store.length + k)).type = stub.type ∧
         (getB store' (store.length + k)).text.getD ""
           = stub.text.getD "" ++ textFor i rest ∧
         (stub.type = "tool_use" → i ∈ stopsOf rest →
           (getB store' (store.length + k)).input
             = some ((parse (jsonFor i rest)).getD emptyJ) ∧
           (store.length + k) ∈ toolSlots') ∧
         (i ∉ stopsOf rest → (getB store' (store.length + k)).input = stub.input))) := by
  intro rest
  induction rest with
  | nil =>
    intro store openB order accJson toolSlots started stopped _ _ _ _ _
    refine ⟨store, openB, order, accJson, toolSlots, rfl, by simp [startsOf],
      fun h => h, fun t ht => ht, ?_, ?_⟩
    · intro i slot _ _
      refine ⟨rfl, ?_, ?_, fun _ => rfl⟩
      · rw [show textFor i ([] : List (StreamEvent J)) = "" from rfl, String.append_empty]
      · intro hstop; simp [stopsOf] at hstop
    · intro k i stub hk; simp [startsOf] at hk
  | cons ev r ih =>
    intro store openB order accJson toolSlots started stopped hwf hopen hclosed hinj hacc
    have holdlt : ∀ j sj, lookupA openB j = some sj → sj < store.length := by
      intro j sj hj
      cases hsj : lookupA started j with
      | none => rw [hclosed j hsj] at hj; cases hj
      | some ty =>
        obtain ⟨sl, h1, h2, _⟩ := hopen j ty hsj
        rw [hj] at h1
        rw [Option.some.inj h1]
        exact h2
    cases ev with
    | message_stop =>
      refine ⟨store, openB, order, accJson, toolSlots, rfl, by simp [startsOf],
        fun h => h, fun t ht => ht, ?_, ?_⟩
      · intro i slot _ _
        refine ⟨rfl, ?_, ?_, fun _ => rfl⟩
        · rw [show textFor i (StreamEvent.message_stop :: r) = "" from rfl, String.append_empty]
        · intro hstop; simp [stopsOf] at hstop
      · intro k i stub hk; simp [startsOf] at hk
    | other_event =>
      have hwf' : wfFrom started stopped r = true := hwf
      obtain ⟨store', openB', order', accJson', toolSlots', hcoll, hA, hB, hC, hD, hE⟩ :=
        ih store openB order accJson toolSlots started stopped hwf' hopen hclosed hinj hacc
      have hstep : step emptyJ parse (DecState.mk store openB order accJson toolSlots)
          StreamEvent.other_event = .ok (DecState.mk store openB order accJson toolSlots) := rfl
      refine ⟨store', openB', order', accJson', toolSlots', ?_, hA, hB, hC, hD, hE⟩
      rw [collectAux_cons_ok emptyJ parse _ _ _ r (by simp) hstep]
      exact hcoll
    | tool_use_event blk => simp [wfFrom] at hwf
    | content_block_start i stub =>
      simp only [wfFrom, Bool.and_eq_true] at hwf
      rcases hwf with ⟨⟨hfresh, _hempty⟩, hwf'⟩
      have hfresh' : lookupA started i = none := Option.isNone_iff_eq_none.mp hfresh
      have hopenI : lookupA openB i = none := hclosed i hfresh'
      have hopen₂ : ∀ j ty, lookupA ((i, stub.type) :: started) j = some ty →
          ∃ slot, lookupA ((i, store.length) :: openB) j = some slot ∧
            slot < (store ++ [stub]).length ∧ (getB (store ++ [stub]) slot).type = ty := by
        intro j ty hj
        by_cases hji : i = j
        · subst hji
          simp only [lookupA, if_pos rfl] at hj
          refine ⟨store.length, by simp [lookupA], by simp, ?_⟩
          rw [getB_concat_self]
          exact Option.some.inj hj
        · have hj' : lookupA started j = some ty := by simpa [lookupA, hji] using hj
          obtain ⟨slot, h1, h2, h3⟩ := hopen j ty hj'
          refine ⟨slot, by simpa [lookupA, hji] using h1, ?_, ?_⟩
          · simp only [List.length_append, List.length_singleton]; omega
          · rw [getB_append_lt _ _ _ h2]; exact h3
      have hclosed₂ : ∀ j, lookupA ((i, stub.type) :: started) j = none →
          lookupA ((i, store.length) :: openB) j = none := by
        intro j hj
        have hji : ¬ i = j := by
          intro h; subst h; simp [lookupA] at hj
        have hj' : lookupA started j = none := by simpa [lookupA, hji] using hj
        simpa [lookupA, hji] using hclosed j hj'
      have hinj₂ : ∀ a b sa sb, lookupA ((i, store.length) :: openB) a = some sa →
          lookupA ((i, store.length) :: openB) b = some sb → a ≠ b → sa ≠ sb := by
        intro a b sa sb ha hb hab
        by_cases hai : i = a
        · subst hai
          simp only [lookupA, if_pos rfl] at ha
          have hb' : lookupA openB b = some sb := by simpa [lookupA, hab] using hb
          have hsb : sb < store.length := holdlt b sb hb'
          have hsa : sa = store.length := (Option.some.inj ha).symm
          omega
        · by_cases hbi : i = b
          · subst hbi
            simp only [lookupA, if_pos rfl] at hb
            have ha' : lookupA openB a = some sa := by simpa [lookupA, hai] using ha
            have hsa : sa < store.length := holdlt a sa ha'
            have hsb : sb = store.length := (Option.some.inj hb).symm
            omega
          · have ha' : lookupA openB a = some sa := by simpa [lookupA, hai] using ha
            have hb' : lookupA openB b = some sb := by simpa [lookupA, hbi] using hb
            exact hinj a b sa sb ha' hb' hab
      have hacc₂ : ∀ j, lookupA ((i, stub.type) :: started) j = some "tool_use" →
          (lookupA (if stub.type = "tool_use" then (i, "") :: accJson else accJson) j).isSome := by
        intro j hj
        by_cases hji : i = j
        · subst hji
          simp only [lookupA, if_pos rfl] at hj
          have hst : stub.type = "tool_use" := Option.some.inj hj
          simp [hst, lookupA]
        · have hj' : lookupA started j = some "tool_use" := by simpa [lookupA, hji] using hj
          have := hacc j hj'
          by_cases hst : stub.type = "tool_use"
          · simpa [hst, lookupA, hji] using this
          · simpa [hst] using this
      obtain ⟨store', openB', order', accJson', toolSlots', hcoll, hA, hB, hC, hD, hE⟩ :=
        ih (store ++ [stub]) ((i, store.length) :: openB) (order ++ [store.length])
          (if stub.type = "tool_use" then (i, "") :: accJson else accJson) toolSlots
          ((i, stub.type) :: started) stopped hwf' hopen₂ hclosed₂ hinj₂ hacc₂
      have hstep : step emptyJ parse (DecState.mk store openB order accJson toolSlots)
          (StreamEvent.content_block_start i stub)
          = .ok (DecState.mk (store ++ [stub]) ((i, store.length) :: openB)
              (order ++ [store.length])
              (if stub.type = "tool_use" then (i, "") :: accJson else accJson) toolSlots) := rfl
      refine ⟨store', openB', order', accJson', toolSlots', ?_, ?_, ?_, hC, ?_, ?_⟩
      · rw [collectAux_cons_ok emptyJ parse _ _ _ r (by simp) hstep]
        exact hcoll
      · simp only [List.length_append, List.length_singleton] at hA
        simp only [startsOf, List.length_cons]
        omega
      · intro hord
        have hord₂ : order ++ [store.length]
            = List.range (store ++ [stub]).length := by
          rw [hord]
          simp [List.length_append, List.range_succ]
        exact hB hord₂
      · intro j slotj hlkj hslotj
        have hji : ¬ i = j := by
          intro h; subst h; rw [hopenI] at hlkj; cases hlkj
        have hlkj₂ : lookupA ((i, store.length) :: openB) j = some slotj := by
          simp [lookupA, hji, hlkj]
        have hslotj₂ : slotj < (store ++ [stub]).length := by
          simp only [List.length_append, List.length_singleton]; omega
        obtain ⟨hDty, hDtext, hDstop, hDnostop⟩ := hD j slotj hlkj₂ hslotj₂
        have hgb : getB (store ++ [stub]) slotj = getB store slotj :=
          getB_append_lt _ _ _ hslotj
        rw [hgb] at hDty hDtext hDstop hDnostop
        refine ⟨hDty, hDtext, ?_, hDnostop⟩
        intro hstop htool
        obtain ⟨hin, hmem⟩ := hDstop hstop htool
        refine ⟨?_, hmem⟩
        intro a ha
        have ha₂ : lookupA (if stub.type = "tool_use" then (i, "") :: accJson else accJson) j
            = some a := by
          by_cases hst : stub.type = "tool_use"
          · simp [hst, lookupA, hji, ha]
          · simp [hst, ha]
        exact hin a ha₂
      · intro k j stub' hk
        cases k with
        | zero =>
          simp only [startsOf, List.getElem?_cons_zero] at hk
          have hpair : (i, stub) = (j, stub') := Option.some.inj hk
          rw [Prod.mk.injEq] at hpair
          obtain ⟨hij, hstub⟩ := hpair
          subst hij; subst hstub
          have hlk₂ : lookupA ((i, store.length) :: openB) i = some store.length := by
            simp [lookupA]
          have hslot₂ : store.length < (store ++ [stub]).length := by simp
          obtain ⟨hDty, hDtext, hDstop, hDnostop⟩ := hD i store.length hlk₂ hslot₂
          have hgb : getB (store ++ [stub]) store.length = stub := getB_concat_self _ _
          rw [hgb] at hDty hDtext hDstop hDnostop
          simp only [Nat.add_zero]
          refine ⟨hDty, hDtext, ?_, hDnostop⟩
          intro htool hstop
          obtain ⟨hin, hmem⟩ := hDstop hstop htool
          refine ⟨?_, hmem⟩
          have hacc0 : lookupA (if stub.type = "tool_use" then (i, "") :: accJson else accJson) i
              = some "" := by
            simp [htool, lookupA]
          have := hin "" hacc0
          rwa [String.empty_append] at this
        | succ k' =>
          simp only [startsOf, List.getElem?_cons_succ] at hk
          obtain ⟨hEty, hEtext, hEstop, hEnostop⟩ := hE k' j stub' hk
          have hidx : store.length + (k' + 1) = (store ++ [stub]).length + k' := by
            simp only [List.length_append, List.length_singleton]; omega
          rw [hidx]
          exact ⟨hEty, hEtext, hEstop, hEnostop⟩
    | content_block_delta i d =>
      simp only [wfFrom, Bool.and_eq_true] at hwf
      rcases hwf with ⟨⟨hguard, _hnst⟩, hwf'⟩
      cases hsty : lookupA started i with
      | none => rw [hsty] at hguard; simp at hguard
      | some ty =>
        rw [hsty] at hguard
        obtain ⟨slot, hlk, hslot, htyB⟩ := hopen i ty hsty
        have hfreshE : ∀ (k j : Nat) (stub' : CBlock J),
            (startsOf r)[k]? = some (j, stub') → j ≠ i := by
          intro k j stub' hk hji
          subst hji
          have := (wf_start_info r started stopped k j stub' hwf' hk).1
          rw [hsty] at this
          cases this
        cases d with
        | textDelta t =>
          have hstep : step emptyJ parse (DecState.mk store openB order accJson toolSlots)
              (StreamEvent.content_block_delta i (Delta.textDelta t))
              = .ok (DecState.mk
                  (modifyAt store slot (fun b => { b with text := some (b.text.getD "" ++ t) }))
                  openB order accJson toolSlots) := by
            simp [step, hlk]
          have hopen₂ : ∀ j ty', lookupA started j = some ty' →
              ∃ sl, lookupA openB j = some sl ∧
                sl < (modifyAt store slot (fun b => { b with text := some (b.text.getD "" ++ t) })).length ∧
                (getB (modifyAt store slot (fun b => { b with text := some (b.text.getD "" ++ t) })) sl).type = ty' := by
            intro j ty' hj
            obtain ⟨sl, h1, h2, h3⟩ := hopen j ty' hj
            refine ⟨sl, h1, by rw [modifyAt_length]; exact h2, ?_⟩
            by_cases hsl : sl = slot
            · subst hsl
              rw [getB_modifyAt_self _ _ _ h2]
              exact h3
            · rw [getB_modifyAt_ne _ _ _ _ hsl]
              exact h3
          obtain ⟨store', openB', order', accJson', toolSlots', hcoll, hA, hB, hC, hD, hE⟩ :=
            ih (modifyAt store slot (fun b => { b with text := some (b.text.getD "" ++ t) }))
              openB order accJson toolSlots started stopped hwf' hopen₂ hclosed hinj hacc
          simp only [modifyAt_length] at hA hB hE
          refine ⟨store', openB', order', accJson', toolSlots', ?_, hA, hB, hC, ?_, ?_⟩
          · rw [collectAux_cons_ok emptyJ parse _ _ _ r (by simp) hstep]
            exact hcoll
          · intro j slotj hlkj hslotj
            have hslotj₂ : slotj < (modifyAt store slot
                (fun b => { b with text := some (b.text.getD "" ++ t) })).length := by
              rw [modifyAt_length]; exact hslotj
            obtain ⟨hDty, hDtext, hDstop, hDnostop⟩ := hD j slotj hlkj hslotj₂
            by_cases hji : j = i
            · subst hji
              have hslots : slotj = slot := by
                rw [hlkj] at hlk
                exact Option.some.inj hlk
              subst hslots
              rw [getB_modifyAt_self _ _ _ hslotj] at hDty hDtext hDstop hDnostop
              refine ⟨hDty, ?_, ?_, hDnostop⟩
              · rw [show textFor j (StreamEvent.content_block_delta j (Delta.textDelta t) :: r)
                    = t ++ textFor j r from by simp [textFor]]
                rw [hDtext]
                have : ({ getB store slotj with
                    text := some ((getB store slotj).text.getD "" ++ t) } : CBlock J).text.getD ""
                    = (getB store slotj).text.getD "" ++ t := rfl
                rw [this, String.append_assoc]
              · intro hstop htool
                exact hDstop hstop htool
            · have hslots : slotj ≠ slot := hinj j i slotj slot hlkj hlk hji
              rw [getB_modifyAt_ne _ _ _ _ hslots] at hDty hDtext hDstop hDnostop
              have hij : ¬ i = j := fun hh => hji hh.symm
              refine ⟨hDty, ?_, hDstop, hDnostop⟩
              rw [show textFor j (StreamEvent.content_block_delta i (Delta.textDelta t) :: r)
                  = textFor j r from by simp [textFor, hij]]
              exact hDtext
          · intro k j stub' hk
            obtain ⟨hEty, hEtext, hEstop, hEnostop⟩ := hE k j stub' hk
            have hji : j ≠ i := hfreshE k j stub' hk
            have hij : ¬ i = j := fun hh => hji hh.symm
            refine ⟨hEty, ?_, hEstop, hEnostop⟩
            rw [show textFor j (StreamEvent.content_block_delta i (Delta.textDelta t) :: r)
                = textFor j r from by simp [textFor, hij]]
            exact hEtext
        | inputJsonDelta v =>
          have htyTool : ty = "tool_use" := eq_of_beq hguard
          subst htyTool
          have hisS : (lookupA accJson i).isSome := hacc i hsty
          obtain ⟨a, hac⟩ := Option.isSome_iff_exists.mp hisS
          have hstep : step emptyJ parse (DecState.mk store openB order accJson toolSlots)
              (StreamEvent.content_block_delta i (Delta.inputJsonDelta v))
              = .ok (DecState.mk store openB order ((i, a ++ v) :: accJson) toolSlots) := by
            simp [step, hlk, hac]
          have hacc₂ : ∀ j, lookupA started j = some "tool_use" →
              (lookupA ((i, a ++ v) :: accJson) j).isSome := by
            intro j hj
            by_cases hji : i = j
            · subst hji; simp [lookupA]
            · simpa [lookupA, hji] using hacc j hj
          obtain ⟨store', openB', order', accJson', toolSlots', hcoll, hA, hB, hC, hD, hE⟩ :=
            ih store openB order ((i, a ++ v) :: accJson) toolSlots started stopped
              hwf' hopen hclosed hinj hacc₂
          refine ⟨store', openB', order', accJson', toolSlots', ?_, hA, hB, hC, ?_, ?_⟩
          · rw [collectAux_cons_ok emptyJ parse _ _ _ r (by simp) hstep]
            exact hcoll
          · intro j slotj hlkj hslotj
            obtain ⟨hDty, hDtext, hDstop, hDnostop⟩ := hD j slotj hlkj hslotj
            refine ⟨hDty, hDtext, ?_, hDnostop⟩
            intro hstop htool
            obtain ⟨hin, hmem⟩ := hDstop hstop htool
            refine ⟨?_, hmem⟩
            intro a' ha'
            by_cases hji : j = i
            · subst hji
              have haa : a' = a := by
                rw [ha'] at hac
                exact Option.some.inj hac
              subst haa
              have := hin (a' ++ v) (by simp [lookupA])
              rw [show jsonFor j (StreamEvent.content_block_delta j (Delta.inputJsonDelta v) :: r)
                  = v ++ jsonFor j r from by simp [jsonFor]]
              rw [← String.append_assoc]
              exact this
            · have hij : ¬ i = j := fun hh => hji hh.symm
              have := hin a' (by simpa [lookupA, hij] using ha')
              rw [show jsonFor j (StreamEvent.content_block_delta i (Delta.inputJsonDelta v) :: r)
                  = jsonFor j r from by simp [jsonFor, hij]]
              exact this
          · intro k j stub' hk
            obtain ⟨hEty, hEtext, hEstop, hEnostop⟩ := hE k j stub' hk
            have hji : j ≠ i := hfreshE k j stub' hk
            have hij : ¬ i = j := fun hh => hji hh.symm
            refine ⟨hEty, hEtext, ?_, hEnostop⟩
            intro htool hstop
            rw [show jsonFor j (StreamEvent.content_block_delta i (Delta.inputJsonDelta v) :: r)
                = jsonFor j r from by simp [jsonFor, hij]]
            exact hEstop htool hstop
        | otherDelta =>
          have hstep : step emptyJ parse (DecState.mk store openB order accJson toolSlots)
              (StreamEvent.content_block_delta i Delta.otherDelta)
              = .ok (DecState.mk store openB order accJson toolSlots) := by
            simp [step, hlk]
          obtain ⟨store', openB', order', accJson', toolSlots', hcoll, hA, hB, hC, hD, hE⟩ :=
            ih store openB order accJson toolSlots started stopped hwf' hopen hclosed hinj hacc
          refine ⟨store', openB', order', accJson', toolSlots', ?_, hA, hB, hC, hD, hE⟩
          rw [collectAux_cons_ok emptyJ parse _ _ _ r (by simp) hstep]
          exact hcoll
    | content_block_stop i =>
      simp only [wfFrom, Bool.and_eq_true] at hwf
      rcases hwf with ⟨⟨hsome, _hnst⟩, hwf'⟩
      obtain ⟨ty, hsty⟩ := Option.isSome_iff_exists.mp hsome
      obtain ⟨slot, hlk, hslot, htyB⟩ := hopen i ty hsty
      have hfreshE : ∀ (k j : Nat) (stub' : CBlock J),
          (startsOf r)[k]? = some (j, stub') → j ≠ i := by
        intro k j stub' hk hji
        have hinfo := (wf_start_info r started (i :: stopped) k j stub' hwf' hk).1
        rw [hji, hsty] at hinfo
        cases hinfo
      have hstopsE : ∀ j, j ≠ i → (j ∈ stopsOf (StreamEvent.content_block_stop i :: r)
          ↔ j ∈ stopsOf r) := by
        intro j hji
        simp only [stopsOf, List.mem_cons]
        constructor
        · rintro (h | h)
          · exact absurd h hji
          · exact h
        · exact fun h => Or.inr h
      by_cases htool : ty = "tool_use"
      · subst htool
        have hisS : (lookupA accJson i).isSome := hacc i hsty
        obtain ⟨a, hac⟩ := Option.isSome_iff_exists.mp hisS
        obtain ⟨hq1, hq2, hq3⟩ :=
          wf_stopped_quiet r started (i :: stopped) i hwf' (List.mem_cons_self _ _)
        have hstep : step emptyJ parse (DecState.mk store openB order accJson toolSlots)
            (StreamEvent.content_block_stop i)
            = .ok (DecState.mk
                (modifyAt store slot (fun b => { b with input := some ((parse a).getD emptyJ) }))
                openB order accJson (toolSlots ++ [slot])) := by
          simp [step, hlk, htyB, hac]
        have hopen₂ : ∀ j ty', lookupA started j = some ty' →
            ∃ sl, lookupA openB j = some sl ∧
              sl < (modifyAt store slot (fun b => { b with input := some ((parse a).getD emptyJ) })).length ∧
              (getB (modifyAt store slot (fun b => { b with input := some ((parse a).getD emptyJ) })) sl).type = ty' := by
          intro j ty' hj
          obtain ⟨sl, h1, h2, h3⟩ := hopen j ty' hj
          refine ⟨sl, h1, by rw [modifyAt_length]; exact h2, ?_⟩
          by_cases hsl : sl = slot
          · subst hsl
            rw [getB_modifyAt_self _ _ _ h2]
            exact h3
          · rw [getB_modifyAt_ne _ _ _ _ hsl]
            exact h3
        obtain ⟨store', openB', order', accJson', toolSlots', hcoll, hA, hB, hC, hD, hE⟩ :=
          ih (modifyAt store slot (fun b => { b with input := some ((parse a).getD emptyJ) }))
            openB order accJson (toolSlots ++ [slot]) started (i :: stopped)
            hwf' hopen₂ hclosed hinj hacc
        simp only [modifyAt_length] at hA hB hE
        refine ⟨store', openB', order', accJson', toolSlots', ?_, hA, hB, ?_, ?_, ?_⟩
        · rw [collectAux_cons_ok emptyJ parse _ _ _ r (by simp) hstep]
          exact hcoll
        · intro t ht
          exact hC t (List.mem_append_left _ ht)
        · intro j slotj hlkj hslotj
          have hslotj₂ : slotj < (modifyAt store slot
              (fun b => { b with input := some ((parse a).getD emptyJ) })).length := by
            rw [modifyAt_length]; exact hslotj
          obtain ⟨hDty, hDtext, hDstop, hDnostop⟩ := hD j slotj hlkj hslotj₂
          by_cases hji : j = i
          · subst hji
            have hslots : slotj = slot := by
              rw [hlkj] at hlk
              exact Option.some.inj hlk
            subst hslots
            rw [getB_modifyAt_self _ _ _ hslotj] at hDty hDtext hDstop hDnostop
            refine ⟨hDty, hDtext, ?_, ?_⟩
            · intro _ _
              refine ⟨?_, hC slotj (List.mem_append_right _ (List.mem_singleton_self _))⟩
              intro a' ha'
              have haa : a' = a := by
                rw [ha'] at hac
                exact Option.some.inj hac
              subst haa
              rw [show jsonFor j (StreamEvent.content_block_stop j :: r)
                  = jsonFor j r from rfl]
              rw [hq2, String.append_empty]
              have := hDnostop hq3
              exact this
            · intro hno
              exact absurd (show j ∈ stopsOf (StreamEvent.content_block_stop j :: r) from
                List.mem_cons_self _ _) hno
          · have hslots : slotj ≠ slot := hinj j i slotj slot hlkj hlk hji
            rw [getB_modifyAt_ne _ _ _ _ hslots] at hDty hDtext hDstop hDnostop
            refine ⟨hDty, hDtext, ?_, ?_⟩
            · intro hstop htool2
              have hstop' : j ∈ stopsOf r := (hstopsE j hji).mp hstop
              exact hDstop hstop' htool2
            · intro hno
              have hno' : j ∉ stopsOf r := fun h => hno ((hstopsE j hji).mpr h)
              exact hDnostop hno'
        · intro k j stub' hk
          obtain ⟨hEty, hEtext, hEstop, hEnostop⟩ := hE k j stub' hk
          have hji : j ≠ i := hfreshE k j stub' hk
          refine ⟨hEty, hEtext, ?_, ?_⟩
          · intro htool2 hstop
            have hstop' : j ∈ stopsOf r := (hstopsE j hji).mp hstop
            exact hEstop htool2 hstop'
          · intro hno
            have hno' : j ∉ stopsOf r := fun h => hno ((hstopsE j hji).mpr h)
            exact hEnostop hno'
      · have hstep : step emptyJ parse (DecState.mk store openB order accJson toolSlots)
            (StreamEvent.content_block_stop i)
            = .ok (DecState.mk store openB order accJson toolSlots) := by
          have : ¬ (getB store slot).type = "tool_use" := by
            rw [htyB]; exact htool
          simp [step, hlk, this]
        obtain ⟨store', openB', order', accJson', toolSlots', hcoll, hA, hB, hC, hD, hE⟩ :=
          ih store openB order accJson toolSlots started (i :: stopped)
            hwf' hopen hclosed hinj hacc
        refine ⟨store', openB', order', accJson', toolSlots', ?_, hA, hB, hC, ?_, ?_⟩
        · rw [collectAux_cons_ok emptyJ parse _ _ _ r (by simp) hstep]
          exact hcoll
        · intro j slotj hlkj hslotj
          obtain ⟨hDty, hDtext, hDstop, hDnostop⟩ := hD j slotj hlkj hslotj
          by_cases hji : j = i
          · subst hji
            have hslots : slotj = slot := by
              rw [hlkj] at hlk
              exact Option.some.inj hlk
            subst hslots
            refine ⟨hDty, hDtext, ?_, ?_⟩
            · intro _ htool2
              rw [htyB] at htool2
              exact absurd htool2 htool
            · intro hno
              exact absurd (show j ∈ stopsOf (StreamEvent.content_block_stop j :: r) from
                List.mem_cons_self _ _) hno
          · refine ⟨hDty, hDtext, ?_, ?_⟩
            · intro hstop htool2
              have hstop' : j ∈ stopsOf r := (hstopsE j hji).mp hstop
              exact hDstop hstop' htool2
            · intro hno
              have hno' : j ∉ stopsOf r := fun h => hno ((hstopsE j hji).mpr h)
              exact hDnostop hno'
        · intro k j stub' hk
          obtain ⟨hEty, hEtext, hEstop, hEnostop⟩ := hE k j stub' hk
          have hji : j ≠ i := hfreshE k j stub' hk
          refine ⟨hEty, hEtext, ?_, ?_⟩
          · intro htool2 hstop
            have hstop' : j ∈ stopsOf r := (hstopsE j hji).mp hstop
            exact hEstop htool2 hstop'
          · intro hno
            have hno' : j ∉ stopsOf r := fun h => hno ((hstopsE j hji).mpr h)
            exact hEnostop hno'

/-- Claim C5: for every well-formed event sequence (each index started
before its deltas, which precede its single stop, stubs arriving empty,
fragments only to matching block kinds), the decoder succeeds and the
text of each reconstructed block equals the concatenation, in arrival
order, of all `text_delta` fragments delivered for that block index. -/
theorem collect_text_concat {J : Type} (emptyJ : J) (parse : String → Option J)
    (events : List (StreamEvent J)) (hwf : wfFrom [] [] events = true) :
    ∃ blocks tools, collect_from_stream emptyJ parse events = .ok (blocks, tools) ∧
      blocks.length = (startsOf events).length ∧
      ∀ (k i : Nat) (stub : CBlock J), (startsOf events)[k]? = some (i, stub) →
        ∃ b, blocks[k]? = some b ∧ b.text.getD "" = textFor i events := by
  obtain ⟨store', openB', order', accJson', toolSlots', hcoll, hA, hB, _hC, _hD, hE⟩ :=
    collectAux_wf_spec emptyJ parse events [] [] [] [] [] [] [] hwf
      (by intro i ty h; cases h) (fun i _ => rfl)
      (by intro i j si sj h; cases h) (by intro i h; cases h)
  simp only [List.length_nil, Nat.zero_add] at hA hE
  have horder : order' = List.range store'.length := hB (by simp [List.range_zero])
  have hcol2 : collect_from_stream emptyJ parse events
      = .ok (order'.map (fun t => getB store' t), toolSlots'.map (fun t => getB store' t)) := by
    unfold collect_from_stream initState
    rw [hcoll]
  refine ⟨_, _, hcol2, ?_, ?_⟩
  · rw [List.length_map, horder, List.length_range]
    exact hA
  · intro k i stub hk
    have hklt : k < (startsOf events).length := by
      by_contra hnk
      rw [List.getElem?_eq_none (Nat.le_of_not_lt hnk)] at hk
      cases hk
    obtain ⟨_hEty, hEtext, _hEstop, _hEnostop⟩ := hE k i stub hk
    have hempty : stub.text.getD "" = "" := (wf_start_info events [] [] k i stub hwf hk).2
    rw [hempty, String.empty_append] at hEtext
    refine ⟨getB store' k, ?_, hEtext⟩
    rw [List.getElem?_map _ _ _, horder]
    have hklt' : k < store'.length := by rw [hA]; exact hklt
    simp [List.getElem?_range, hklt']

/-- Claim C6: for every well-formed event sequence, every tool-use block
whose accumulated `input_json_delta` fragments fail to parse gets the
empty structure as its `input` at `content_block_stop`, is still recorded
in `tool_requests`, and the parse failure is not propagated as an
exception (the decoder returns normally). -/
theorem collect_invalid_json_empty_input {J : Type} (emptyJ : J)
    (parse : String → Option J) (events : List (StreamEvent J))
    (hwf : wfFrom [] [] events = true) (k i : Nat) (stub : CBlock J)
    (hk : (startsOf events)[k]? = some (i, stub)) (htool : stub.type = "tool_use")
    (hstop : i ∈ stopsOf events) (hbad : parse (jsonFor i events) = none) :
    ∃ blocks tools, collect_from_stream emptyJ parse events = .ok (blocks, tools) ∧
      ∃ b, blocks[k]? = some b ∧ b.input = some emptyJ ∧ b ∈ tools := by
  obtain ⟨store', openB', order', accJson', toolSlots', hcoll, hA, hB, _hC, _hD, hE⟩ :=
    collectAux_wf_spec emptyJ parse events [] [] [] [] [] [] [] hwf
      (by intro i' ty h; cases h) (fun i' _ => rfl)
      (by intro i' j si sj h; cases h) (by intro i' h; cases h)
  simp only [List.length_nil, Nat.zero_add] at hA hE
  have horder : order' = List.range store'.length := hB (by simp [List.range_zero])
  have hcol2 : collect_from_stream emptyJ parse events
      = .ok (order'.map (fun t => getB store' t), toolSlots'.map (fun t => getB store' t)) := by
    unfold collect_from_stream initState
    rw [hcoll]
  refine ⟨_, _, hcol2, ?_⟩
  obtain ⟨_hEty, _hEtext, hEstop, _hEnostop⟩ := hE k i stub hk
  obtain ⟨hinput, hmem⟩ := hEstop htool hstop
  rw [hbad] at hinput
  refine ⟨getB store' k, ?_, hinput, ?_⟩
  · have hklt : k < (startsOf events).length := by
      by_contra hnk
      rw [List.getElem?_eq_none (Nat.le_of_not_lt hnk)] at hk
      cases hk
    have hklt' : k < store'.length := by rw [hA]; exact hklt
    rw [List.getElem?_map _ _ _, horder]
    simp [List.getElem?_range, hklt']
  · exact List.mem_map_of_mem _ hmem

/-- A text-block stub with empty text, as delivered by the provider. -/
def textStub : CBlock Unit := ⟨"text", some "", none, none, none⟩

/-- A tool-use stub, as delivered by the provider. -/
def toolStub : CBlock Unit := ⟨"tool_use", none, some "tu1", some "computer", none⟩

/-- A well-formed one-block text stream for the C5 witness. -/
def c5Events : List (StreamEvent Unit) :=
  [.content_block_start 0 textStub,
   .content_block_delta 0 (.textDelta "Hel"),
   .content_block_delta 0 (.textDelta "lo!"),
   .content_block_stop 0,
   .message_stop]

/-- Witness for C5 at a concrete well-formed stream. -/
theorem collect_text_concat_witness :
    wfFrom [] [] c5Events = true ∧
    (∃ blocks tools, collect_from_stream () (fun _ => none) c5Events = .ok (blocks, tools) ∧
      blocks.length = (startsOf c5Events).length ∧
      ∀ (k i : Nat) (stub : CBlock Unit), (startsOf c5Events)[k]? = some (i, stub) →
        ∃ b, blocks[k]? = some b ∧ b.text.getD "" = textFor i c5Events) :=
  ⟨by decide, collect_text_concat () (fun _ => none) c5Events (by decide)⟩

/-- A well-formed one-tool-block stream whose accumulated JSON is
rejected by the parse function, for the C6 witness. -/
def c6Events : List (StreamEvent Unit) :=
  [.content_block_start 0 toolStub,
   .content_block_delta 0 (.inputJsonDelta "action: screenshot"),
   .content_block_stop 0,
   .message_stop]

/-- Witness for C6 at a concrete stream with unparseable tool arguments. -/
theorem collect_invalid_json_empty_input_witness :
    (wfFrom [] [] c6Events = true ∧ (startsOf c6Events)[0]? = some (0, toolStub) ∧
      toolStub.type = "tool_use" ∧ 0 ∈ stopsOf c6Events) ∧
    (∃ blocks tools, collect_from_stream () (fun _ => none) c6Events = .ok (blocks, tools) ∧
      ∃ b, blocks[0]? = some b ∧ b.input = some () ∧ b ∈ tools) :=
  ⟨⟨by decide, by decide, rfl, by decide⟩,
   collect_invalid_json_empty_input () (fun _ => none) c6Events (by decide) 0 0 toolStub
     (by decide) rfl (by decide) rfl⟩

/-- An out-of-order reference before `message_stop`, for the C8 witness. -/
def c8BadEvents : List (StreamEvent Unit) :=
  [.content_block_delta 0 (.textDelta "x")]

/-- Witness for the amended C8 at a concrete out-of-order stream. -/
theorem collect_bad_ref_errors_witness :
    hasBadRef [] c8BadEvents = true ∧
    ∃ e, collect_from_stream () (fun _ => none) c8BadEvents = .error e :=
  ⟨by decide, collect_bad_ref_errors () (fun _ => none) c8BadEvents (by decide)⟩

/-- A stream whose only reference to index 0 precedes its
`content_block_start`, but only after a `message_stop`. -/
def c8Events : List (StreamEvent Unit) :=
  [.message_stop, .content_block_delta 0 (.textDelta "x"),
   .content_block_start 0 textStub]

/-- Claim C8 counterexample: in `c8Events`, index 0 is referenced by a
`content_block_delta` before its `content_block_start`, yet
`collect_from_stream` stops at the leading `message_stop` and returns
success with empty outputs instead of reporting a fatal decode error. -/
theorem collect_bad_ref_after_stop_cex :
    refBeforeStart [] c8Events = true ∧
    collect_from_stream () (fun _ => none) c8Events = .ok ([], []) :=
  ⟨by decide, rfl⟩

end Agent
